import Mathlib

/-!
Verification of the weighted-portfolio-return computation of
`app.py` (Portfolio-Dashboard-Code).

The program logic under study is `compute_portfolio_returns` (app.py lines
46-64), the display-path weight realignment (lines 171-173), and the
sidebar weight-map construction (lines 125-138).

Modelling conventions:
* real numbers are modelled by `ℚ` (exact arithmetic; every equality proved
  exactly implies any floating-point tolerance claim such as 1e-9);
* a pandas DataFrame of prices is modelled column-wise (`PriceTable`):
  an ordered list of column labels and, in the same order, the price
  series of each column — pandas stores a frame as an ordered dict of
  columns, so this is the direct image of the source data model;
* a Python `dict` used only through `d[k]` lookups is modelled as an
  association list with `List.lookup`; the `dict(zip(...))` constructor,
  whose key-collapsing behaviour matters, is modelled by `dictOfZip`
  below with Python's insert-or-overwrite semantics;
* Python exceptions (`KeyError`, `ZeroDivisionError`) are modelled by
  the `Except PyError` monad: an expression that raises is an
  `Except.error`.
-/

namespace PortfolioDash

/-- Ticker symbols are strings, as in the Python source. -/
abbrev Ticker := String

/-- The two exceptions the modelled code can raise: `ticker_weight_map[t]`
on a missing key raises `KeyError(t)` (app.py line 51 and line 171), and a
division by integer/float zero raises `ZeroDivisionError` (possible at
line 55 via `1/len(valid_tickers)` and at line 173 via `cw/total_curr`). -/
inductive PyError where
  | keyError (key : Ticker)
  | zeroDivisionError
deriving DecidableEq, Repr

/-- Column-wise model of the aligned price DataFrame handed to
`compute_portfolio_returns`: `tickers` are the column labels in order
(`data.columns`) and `cols` the corresponding price series. A well-formed
table has `cols.length = tickers.length` and all columns of one common
length (the number of rows); theorems carry these as hypotheses where
they matter. -/
structure PriceTable where
  tickers : List Ticker
  cols : List (List ℚ)
deriving Repr

/-- Python `ticker_weight_map[t]`: dict indexing, which raises
`KeyError(t)` when the key is absent (app.py line 51). -/
def lookupWeight (m : List (Ticker × ℚ)) (t : Ticker) : Except PyError ℚ :=
  match List.lookup t m with
  | some w => .ok w
  | none => .error (.keyError t)

/-- The comprehension `[ticker_weight_map[t] for t in valid_tickers]`
(app.py lines 51 and 171): looks the tickers up left to right and raises
`KeyError` at the first absent one. -/
def lookupAll (m : List (Ticker × ℚ)) : List Ticker → Except PyError (List ℚ)
  | [] => .ok []
  | t :: ts => do
    let w ← lookupWeight m t
    let ws ← lookupAll m ts
    pure (w :: ws)

/-- Embeds app.py lines 48-55, the weight-realignment block at the top of
`compute_portfolio_returns`:

    raw_weights = [ticker_weight_map[t] for t in valid_tickers]
    total_w = sum(raw_weights)
    valid_weights = [w / total_w for w in raw_weights] if total_w > 0
                    else [1/len(valid_tickers)] * len(valid_tickers)

In the `else` branch Python evaluates `1/len(valid_tickers)` before the
list replication, so an empty `valid_tickers` raises `ZeroDivisionError`
there even though the resulting list would be empty. -/
def realign_weights (validTickers : List Ticker) (m : List (Ticker × ℚ)) :
    Except PyError (List ℚ) := do
  let rawWeights ← lookupAll m validTickers
  let totalW := rawWeights.sum
  if 0 < totalW then
    pure (rawWeights.map (· / totalW))
  else if validTickers.length = 0 then
    Except.error PyError.zeroDivisionError
  else
    pure (List.replicate validTickers.length (1 / (validTickers.length : ℚ)))

/-- Per-column effect of `data.pct_change().dropna()` (app.py line 58) on a
gap-free column: entry `i` is `price[i+1]/price[i] - 1`, and the first row
of `pct_change` (all NaN) is the one `dropna` removes, leaving `n - 1`
rows. -/
def colReturns (c : List ℚ) : List ℚ :=
  List.zipWith (fun cur prev => cur / prev - 1) c.tail c

/-- Pandas `DataFrame.empty` for the returns table (app.py line 59): true
when either axis has length zero. Under the all-columns-same-length
invariant the row count is the head column's length. -/
def dfIsEmpty (cols : List (List ℚ)) : Bool :=
  cols.isEmpty || (cols.head?.getD []).isEmpty

/-- Embeds `(returns * valid_weights).sum(axis=1)` (app.py line 63):
the weight list is aligned positionally with the return columns, each
column is scaled by its weight, and each date (row index `i`) gets the
sum across columns. -/
def portfolio_series (retCols : List (List ℚ)) (ws : List ℚ) : List ℚ :=
  (List.range ((retCols.head?.getD []).length)).map fun i =>
    (List.zipWith (fun c w => c.getD i 0 * w) retCols ws).sum

/-- Embeds `compute_portfolio_returns` (app.py lines 46-64). The weight
realignment (lines 48-55) runs before the returns computation
(lines 58-60), exactly as in the source; `pd.Series(dtype=float)` is the
empty list. -/
def compute_portfolio_returns (data : PriceTable) (m : List (Ticker × ℚ)) :
    Except PyError (List ℚ) := do
  let validWeights ← realign_weights data.tickers m
  let retCols := data.cols.map colReturns
  if dfIsEmpty retCols then
    pure []
  else
    pure (portfolio_series retCols validWeights)

/-- The comprehension `[cw/total_curr for cw in current_weights]`
(app.py line 173): each division raises `ZeroDivisionError` when the
divisor is zero, so an empty list evaluates no division and cannot
raise. -/
def divAll (total : ℚ) : List ℚ → Except PyError (List ℚ)
  | [] => .ok []
  | cw :: rest => do
    let q ← if total = 0 then Except.error PyError.zeroDivisionError
            else Except.ok (cw / total)
    let qs ← divAll total rest
    pure (q :: qs)

/-- Embeds the display-path realignment, app.py lines 171-173:

    current_weights = [ticker_weight_map[t] for t in valid_tickers_list]
    total_curr = sum(current_weights)
    final_weights = [cw/total_curr for cw in current_weights]

The comprehension is `divAll`, which raises at the first division once
`total_curr` is zero and the list is non-empty. -/
def final_weights (validTickers : List Ticker) (m : List (Ticker × ℚ)) :
    Except PyError (List ℚ) := do
  let currentWeights ← lookupAll m validTickers
  let totalCurr := currentWeights.sum
  divAll totalCurr currentWeights

/-- Python dict insert-or-overwrite: `d[k] = v` replaces the value in
place when the key exists (keeping its position) and appends otherwise. -/
def dictInsert (d : List (Ticker × ℚ)) (k : Ticker) (v : ℚ) :
    List (Ticker × ℚ) :=
  if (List.lookup k d).isSome then
    d.map (fun p => if p.1 == k then (k, v) else p)
  else
    d ++ [(k, v)]

/-- Python `dict(zip(ts, vs))`: pairs inserted left to right, a repeated
key keeping its first position but taking its last value. -/
def dictOfZip (ts : List Ticker) (vs : List ℚ) : List (Ticker × ℚ) :=
  (List.zip ts vs).foldl (fun d p => dictInsert d p.1 p.2) []

/-- Embeds the sidebar weight-map construction, app.py lines 125-138
(run under the `if tickers:` guard, so `tickers` is non-empty there):

    total_weight_input = sum(weights)
    normalized_weights = [w / total_weight_input for w in weights]
        if total_weight_input > 0 else [1/len(tickers)] * len(tickers)
    ticker_weight_map = dict(zip(tickers, normalized_weights))

`sliders` is the list of slider values, one per entered ticker. -/
def ticker_weight_map (tickers : List Ticker) (sliders : List ℚ) :
    List (Ticker × ℚ) :=
  let totalWeightInput := sliders.sum
  let normalizedWeights :=
    if 0 < totalWeightInput then sliders.map (· / totalWeightInput)
    else List.replicate tickers.length (1 / (tickers.length : ℚ))
  dictOfZip tickers normalizedWeights

/-! ### Helper lemmas for the `Except` monad -/

@[simp] theorem ok_bind {ε α β : Type} (a : α) (f : α → Except ε β) :
    (Except.ok a : Except ε α) >>= f = f a := rfl

@[simp] theorem error_bind {ε α β : Type} (e : ε) (f : α → Except ε β) :
    (Except.error e : Except ε α) >>= f = Except.error e := rfl

@[simp] theorem map_ok {ε α β : Type} (g : α → β) (a : α) :
    (g <$> (Except.ok a : Except ε α)) = Except.ok (g a) := rfl

@[simp] theorem map_error {ε α β : Type} (g : α → β) (e : ε) :
    (g <$> (Except.error e : Except ε α)) = Except.error e := rfl

@[simp] theorem pure_eq_ok {ε α : Type} (a : α) :
    (pure a : Except ε α) = Except.ok a := rfl

/-! ### Characterisation of the weight lookups and realignment -/

/-- The value of `raw_weights` (app.py line 51) when every lookup
succeeds: the weight stored for each valid ticker. -/
def rawWeights (validTickers : List Ticker) (m : List (Ticker × ℚ)) : List ℚ :=
  validTickers.map fun t => (List.lookup t m).getD 0

theorem lookupAll_eq_ok (m : List (Ticker × ℚ)) (l : List Ticker)
    (h : ∀ t ∈ l, (List.lookup t m).isSome) :
    lookupAll m l = .ok (rawWeights l m) := by
  induction l with
  | nil => rfl
  | cons t ts ih =>
    obtain ⟨w, hw⟩ := Option.isSome_iff_exists.mp (h t (by simp))
    have hts := ih (fun x hx => h x (List.mem_cons_of_mem _ hx))
    simp [lookupAll, lookupWeight, hw, hts, rawWeights]

theorem lookupAll_congr (m₁ m₂ : List (Ticker × ℚ)) (l : List Ticker)
    (h : ∀ t ∈ l, List.lookup t m₁ = List.lookup t m₂) :
    lookupAll m₁ l = lookupAll m₂ l := by
  induction l with
  | nil => rfl
  | cons t ts ih =>
    have hts := ih (fun x hx => h x (List.mem_cons_of_mem _ hx))
    simp only [lookupAll, lookupWeight, h t (by simp), hts]

theorem lookupAll_error_of_missing (m : List (Ticker × ℚ)) (l : List Ticker)
    (h : ∃ t ∈ l, List.lookup t m = none) :
    ∃ k, lookupAll m l = .error (.keyError k) ∧ List.lookup k m = none := by
  induction l with
  | nil => simp at h
  | cons t ts ih =>
    by_cases ht : List.lookup t m = none
    · exact ⟨t, by simp [lookupAll, lookupWeight, ht], ht⟩
    · obtain ⟨w, hw⟩ := Option.ne_none_iff_exists.mp ht
      obtain ⟨x, hx, hxn⟩ := h
      rcases List.mem_cons.mp hx with rfl | hx
      · exact absurd hxn ht
      · obtain ⟨k, hk, hkn⟩ := ih ⟨x, hx, hxn⟩
        refine ⟨k, ?_, hkn⟩
        simp [lookupAll, lookupWeight, ← hw, hk]

theorem sum_map_div (l : List ℚ) (s : ℚ) : (l.map (· / s)).sum = l.sum / s := by
  induction l with
  | nil => simp
  | cons a l ih => simp [ih, add_div]

theorem sum_replicate_inv (n : ℕ) (hn : n ≠ 0) :
    (List.replicate n ((1 : ℚ) / n)).sum = 1 := by
  have hn' : (n : ℚ) ≠ 0 := Nat.cast_ne_zero.mpr hn
  rw [List.sum_replicate, nsmul_eq_mul, mul_one_div, div_self hn']

/-- With every valid ticker present in the weight map and a positive raw
total, realignment divides each raw weight by the total (the `if` branch
of app.py line 55). -/
theorem realign_weights_pos (validTickers : List Ticker) (m : List (Ticker × ℚ))
    (hcov : ∀ t ∈ validTickers, (List.lookup t m).isSome)
    (hpos : 0 < (rawWeights validTickers m).sum) :
    realign_weights validTickers m =
      .ok ((rawWeights validTickers m).map (· / (rawWeights validTickers m).sum)) := by
  simp [realign_weights, lookupAll_eq_ok m validTickers hcov, hpos]

/-- With every valid ticker present, a non-positive raw total, and a
non-empty ticker list, realignment falls back to equal weights (the
`else` branch of app.py line 55). -/
theorem realign_weights_nonpos (validTickers : List Ticker) (m : List (Ticker × ℚ))
    (hcov : ∀ t ∈ validTickers, (List.lookup t m).isSome)
    (hpos : ¬ 0 < (rawWeights validTickers m).sum)
    (hne : validTickers ≠ []) :
    realign_weights validTickers m =
      .ok (List.replicate validTickers.length (1 / (validTickers.length : ℚ))) := by
  have hlen : validTickers.length ≠ 0 := by
    simpa [List.length_eq_zero] using hne
  simp [realign_weights, lookupAll_eq_ok m validTickers hcov, hpos, hlen]

/-- Columns of at most one price row produce no return rows (the lone
`pct_change` row is NaN and dropped). -/
theorem colReturns_eq_nil_of_short (c : List ℚ) (h : c.length ≤ 1) :
    colReturns c = [] := by
  match c, h with
  | [], _ => rfl
  | [a], _ => rfl

/-- Under coverage and a non-empty ticker list, realignment always
returns a value (no exception escapes app.py lines 48-55). -/
theorem realign_weights_isOk (validTickers : List Ticker) (m : List (Ticker × ℚ))
    (hne : validTickers ≠ [])
    (hcov : ∀ t ∈ validTickers, (List.lookup t m).isSome) :
    ∃ ws, realign_weights validTickers m = .ok ws := by
  by_cases hpos : 0 < (rawWeights validTickers m).sum
  · exact ⟨_, realign_weights_pos validTickers m hcov hpos⟩
  · exact ⟨_, realign_weights_nonpos validTickers m hcov hpos hne⟩

/-- C1: for every prices table with a non-empty set of columns
(`valid_tickers`) and every weight map covering those columns, the
realigned weight vector computed inside `compute_portfolio_returns`
(raw weights divided by their sum when positive, else equal weights)
sums to 1 within 1e-9; in this exact-arithmetic model it sums to
exactly 1, which implies the tolerance bound. -/
theorem realigned_weights_sum_to_one (data : PriceTable) (m : List (Ticker × ℚ))
    (hne : data.tickers ≠ [])
    (hcov : ∀ t ∈ data.tickers, (List.lookup t m).isSome)
    (ws : List ℚ) (hws : realign_weights data.tickers m = .ok ws) :
    |ws.sum - 1| ≤ 1 / 1000000000 := by
  have hsum : ws.sum = 1 := by
    by_cases hpos : 0 < (rawWeights data.tickers m).sum
    · rw [realign_weights_pos data.tickers m hcov hpos] at hws
      obtain rfl : (rawWeights data.tickers m).map
          (· / (rawWeights data.tickers m).sum) = ws := by
        injection hws
      rw [sum_map_div, div_self (ne_of_gt hpos)]
    · rw [realign_weights_nonpos data.tickers m hcov hpos hne] at hws
      obtain rfl : List.replicate data.tickers.length
          (1 / (data.tickers.length : ℚ)) = ws := by
        injection hws
      exact sum_replicate_inv data.tickers.length
        (by simpa [List.length_eq_zero] using hne)
  rw [hsum]
  norm_num

theorem realigned_weights_sum_to_one_witness :
    |([(1 : ℚ)].sum) - 1| ≤ 1 / 1000000000 :=
  realigned_weights_sum_to_one ⟨["A"], [[5]]⟩ [("A", 2)] (by simp) (by decide)
    [1] (by simp [realign_weights, lookupAll, lookupWeight, List.lookup])

/-- C2: with a non-empty list of valid tickers all present in the weight
map, realignment never divides by zero: a zero raw-weight sum falls back
to equal weighting `1/len(valid_tickers)` for each ticker, and a positive
sum divides every raw weight by that sum. -/
theorem realign_weights_zero_sum_fallback (validTickers : List Ticker)
    (m : List (Ticker × ℚ)) (hne : validTickers ≠ [])
    (hcov : ∀ t ∈ validTickers, (List.lookup t m).isSome) :
    ((rawWeights validTickers m).sum = 0 →
      realign_weights validTickers m =
        .ok (List.replicate validTickers.length (1 / (validTickers.length : ℚ)))) ∧
    (0 < (rawWeights validTickers m).sum →
      realign_weights validTickers m =
        .ok ((rawWeights validTickers m).map (· / (rawWeights validTickers m).sum))) := by
  constructor
  · intro hzero
    exact realign_weights_nonpos validTickers m hcov (by rw [hzero]; exact lt_irrefl 0) hne
  · intro hpos
    exact realign_weights_pos validTickers m hcov hpos

theorem realign_weights_zero_sum_fallback_witness :
    realign_weights ["A", "B"] [("A", 0), ("B", 0)] =
      .ok (List.replicate (["A", "B"] : List Ticker).length
        (1 / (((["A", "B"] : List Ticker).length : ℕ) : ℚ))) :=
  (realign_weights_zero_sum_fallback ["A", "B"] [("A", 0), ("B", 0)]
      (by simp) (by decide)).1
    (by simp [rawWeights, List.lookup])

/-- C3 counterexample: called on an empty prices table (Scenario C,
zero instrument columns), `compute_portfolio_returns` raises
`ZeroDivisionError` from `1/len(valid_tickers)` instead of returning an
empty series. -/
theorem compute_portfolio_returns_empty_table_raises :
    compute_portfolio_returns ⟨[], []⟩ [] = .error .zeroDivisionError ∧
    compute_portfolio_returns ⟨[], []⟩ [] ≠ .ok [] := by
  constructor <;> simp [compute_portfolio_returns, realign_weights, lookupAll]

/-- C3 amended: with zero instrument columns `compute_portfolio_returns`
raises `ZeroDivisionError`; with at least one column, a weight map
covering the columns, and fewer than two price rows per column it
returns an empty series without raising. -/
theorem compute_portfolio_returns_empty_cases (data : PriceTable)
    (m : List (Ticker × ℚ)) :
    (data.tickers = [] →
      compute_portfolio_returns data m = .error .zeroDivisionError) ∧
    (data.tickers ≠ [] → (∀ t ∈ data.tickers, (List.lookup t m).isSome) →
      (∀ c ∈ data.cols, c.length ≤ 1) →
      compute_portfolio_returns data m = .ok []) := by
  constructor
  · intro h
    simp [compute_portfolio_returns, realign_weights, h, lookupAll]
  · intro hne hcov hshort
    obtain ⟨ws, hws⟩ := realign_weights_isOk data.tickers m hne hcov
    have hempty : dfIsEmpty (data.cols.map colReturns) = true := by
      match data.cols, hshort with
      | [], _ => rfl
      | c :: rest, hshort =>
        have : colReturns c = [] :=
          colReturns_eq_nil_of_short c (hshort c (by simp))
        simp [dfIsEmpty, this]
    simp [compute_portfolio_returns, hws, hempty]

theorem compute_portfolio_returns_empty_cases_witness :
    compute_portfolio_returns ⟨["A"], [[100]]⟩ [("A", 1)] = .ok [] :=
  (compute_portfolio_returns_empty_cases ⟨["A"], [[100]]⟩ [("A", 1)]).2
    (by simp) (by decide) (by decide)

/-- C4 counterexample: a column ticker absent from the weight map is not
treated as weight 0 — `ticker_weight_map[t]` raises `KeyError`. -/
theorem compute_portfolio_returns_missing_key_raises :
    compute_portfolio_returns ⟨["B"], [[1, 2]]⟩ [("A", 1)] =
      .error (.keyError "B") := by
  simp [compute_portfolio_returns, realign_weights, lookupAll, lookupWeight,
    List.lookup]

/-- C4 amended: whenever some column ticker is absent from the weight
map, `compute_portfolio_returns` raises `KeyError` naming an absent
ticker instead of treating its weight as 0. -/
theorem compute_portfolio_returns_missing_key_keyError (data : PriceTable)
    (m : List (Ticker × ℚ))
    (h : ∃ t ∈ data.tickers, List.lookup t m = none) :
    ∃ k, compute_portfolio_returns data m = .error (.keyError k) ∧
      List.lookup k m = none := by
  obtain ⟨k, hk, hkn⟩ := lookupAll_error_of_missing m data.tickers h
  exact ⟨k, by simp [compute_portfolio_returns, realign_weights, hk], hkn⟩

theorem compute_portfolio_returns_missing_key_keyError_witness :
    ∃ k, compute_portfolio_returns ⟨["B"], [[1, 2]]⟩ [("A", 1)] =
      .error (.keyError k) ∧ List.lookup k [("A", (1 : ℚ))] = none :=
  compute_portfolio_returns_missing_key_keyError ⟨["B"], [[1, 2]]⟩ [("A", 1)]
    ⟨"B", by decide, by decide⟩

/-- Unfolding of the per-column return series on two leading prices. -/
theorem colReturns_cons_cons (a b : ℚ) (r : List ℚ) :
    colReturns (a :: b :: r) = (b / a - 1) :: colReturns (b :: r) := rfl

theorem colReturns_getElem (c : List ℚ) (i : ℕ) (h : i + 1 < c.length) :
    (colReturns c)[i]? = some (c.getD (i + 1) 0 / c.getD i 0 - 1) := by
  induction c generalizing i with
  | nil => simp at h
  | cons a rest ih =>
    match rest with
    | [] => simp at h
    | b :: r =>
      match i with
      | 0 => simp [colReturns_cons_cons]
      | i + 1 =>
        rw [colReturns_cons_cons]
        have h' : i + 1 < (b :: r).length := by
          simpa using Nat.lt_of_succ_lt_succ h
        simpa using ih i h'

/-- C5: on an aligned gap-free column of n >= 1 prices, `pct_change`
followed by dropping the first NaN row yields exactly n - 1 rows, with
return[i] = price[i+1]/price[i] - 1; a 1-row table yields an empty
return table and `compute_portfolio_returns` yields an empty series
(Scenario D). -/
theorem compute_returns_length_and_formula (c : List ℚ) (h : 1 ≤ c.length) :
    ((colReturns c).length = c.length - 1) ∧
    (∀ i, i + 1 < c.length →
      (colReturns c)[i]? = some (c.getD (i + 1) 0 / c.getD i 0 - 1)) ∧
    colReturns [(100 : ℚ)] = [] ∧
    compute_portfolio_returns ⟨["A"], [[100]]⟩ [("A", 1)] = .ok [] := by
  refine ⟨?_, fun i hi => colReturns_getElem c i hi, rfl, ?_⟩
  · rw [colReturns, List.length_zipWith, List.length_tail]
    omega
  · simp [compute_portfolio_returns, realign_weights, lookupAll, lookupWeight,
      List.lookup, dfIsEmpty, colReturns]

theorem compute_returns_length_and_formula_witness :
    (colReturns [(100 : ℚ), 110])[0]? =
      some ([(100 : ℚ), 110].getD 1 0 / [(100 : ℚ), 110].getD 0 0 - 1) :=
  (compute_returns_length_and_formula [(100 : ℚ), 110] (by simp)).2.1 0 (by simp)

/-- C6 (Scenario A): prices A = [100,110,121], B = [50,55,49.5] with
weights A:50, B:50 give per-instrument returns A = [0.10,0.10],
B = [0.10,-0.10], realigned weights [0.5,0.5], and portfolio returns
[0.10, 0.00]. -/
theorem scenarioA_exact :
    compute_portfolio_returns ⟨["A", "B"], [[100, 110, 121], [50, 55, 49.5]]⟩
        [("A", 50), ("B", 50)] = .ok [1 / 10, 0] ∧
    ([[100, 110, 121], [50, 55, (49.5 : ℚ)]].map colReturns) =
      [[1 / 10, 1 / 10], [1 / 10, -(1 / 10)]] ∧
    realign_weights ["A", "B"] [("A", 50), ("B", 50)] = .ok [1 / 2, 1 / 2] := by
  refine ⟨?_, ?_, ?_⟩
  · simp [compute_portfolio_returns, realign_weights, lookupAll, lookupWeight,
      List.lookup, colReturns, dfIsEmpty, portfolio_series]
    norm_num [List.range_succ]
  · simp [colReturns]
    norm_num
  · simp [realign_weights, lookupAll, lookupWeight, List.lookup]
    norm_num

theorem lookup_filter_contains (tickers : List Ticker) (m : List (Ticker × ℚ))
    (t : Ticker) (ht : t ∈ tickers) :
    List.lookup t (m.filter (fun p => tickers.contains p.1)) = List.lookup t m := by
  induction m with
  | nil => rfl
  | cons p rest ih =>
    by_cases hk : t == p.1
    · have hm : p.1 ∈ tickers := by
        have ht' : t = p.1 := by simpa using hk
        exact ht' ▸ ht
      simp [List.filter_cons, hm, List.lookup, hk]
    · by_cases hm : p.1 ∈ tickers <;>
        simp [List.filter_cons, hm, List.lookup, hk] <;> simpa using ih

/-- The output of `compute_portfolio_returns` depends on the weight map
only through the lookups of the valid tickers. -/
theorem compute_portfolio_returns_congr (data : PriceTable)
    (m₁ m₂ : List (Ticker × ℚ))
    (h : ∀ t ∈ data.tickers, List.lookup t m₁ = List.lookup t m₂) :
    compute_portfolio_returns data m₁ = compute_portfolio_returns data m₂ := by
  have hre : realign_weights data.tickers m₁ = realign_weights data.tickers m₂ := by
    unfold realign_weights
    rw [lookupAll_congr m₁ m₂ data.tickers h]
  simp [compute_portfolio_returns, hre]

/-- C7: weight-map entries whose key is not a column of the prices table
are silently dropped — the output only depends on the lookups of the
valid tickers, so filtering the map to the surviving columns changes
nothing — and Scenario B: prices A = [100,110] with weights A:70, B:30
give realigned weight [1.0] and portfolio returns [0.10]. -/
theorem extra_weight_keys_dropped :
    (∀ (data : PriceTable) (m : List (Ticker × ℚ)),
      compute_portfolio_returns data m =
        compute_portfolio_returns data
          (m.filter (fun p => data.tickers.contains p.1))) ∧
    compute_portfolio_returns ⟨["A"], [[100, 110]]⟩ [("A", 70), ("B", 30)] =
      .ok [1 / 10] ∧
    realign_weights ["A"] [("A", 70), ("B", 30)] = .ok [1] := by
  refine ⟨fun data m => ?_, ?_, ?_⟩
  · exact compute_portfolio_returns_congr data m _
      (fun t ht => (lookup_filter_contains data.tickers m t ht).symm)
  · simp [compute_portfolio_returns, realign_weights, lookupAll, lookupWeight,
      List.lookup, colReturns, dfIsEmpty, portfolio_series]
    norm_num [List.range_succ]
  · simp [realign_weights, lookupAll, lookupWeight, List.lookup]

/-- A non-zero divisor makes the display-path comprehension succeed,
dividing every element. -/
theorem divAll_ok (total : ℚ) (h : total ≠ 0) (l : List ℚ) :
    divAll total l = .ok (l.map (· / total)) := by
  induction l with
  | nil => rfl
  | cons cw rest ih => simp [divAll, h, ih]

/-- A zero divisor and a non-empty list raise at the first division. -/
theorem divAll_zero (cw : ℚ) (rest : List ℚ) :
    divAll 0 (cw :: rest) = .error .zeroDivisionError := by
  simp [divAll]

/-- C9: with the weight map covering the valid tickers, the display-path
realignment `final_weights` (app.py lines 171-173) equals the realignment
inside `compute_portfolio_returns` whenever the raw weight sum is
positive; with a zero sum and at least one surviving ticker it instead
raises `ZeroDivisionError` (it has no equal-weight fallback), while the
compute-path realignment still returns a value. -/
theorem final_weights_equiv_realign (validTickers : List Ticker)
    (m : List (Ticker × ℚ))
    (hcov : ∀ t ∈ validTickers, (List.lookup t m).isSome) :
    (0 < (rawWeights validTickers m).sum →
      final_weights validTickers m = realign_weights validTickers m) ∧
    ((rawWeights validTickers m).sum = 0 → validTickers ≠ [] →
      final_weights validTickers m = .error .zeroDivisionError ∧
      ∃ ws, realign_weights validTickers m = .ok ws) := by
  have hla := lookupAll_eq_ok m validTickers hcov
  constructor
  · intro hpos
    rw [final_weights, realign_weights_pos validTickers m hcov hpos]
    simp [hla, divAll_ok _ (ne_of_gt hpos)]
  · intro hzero hne
    refine ⟨?_, realign_weights_isOk validTickers m hne hcov⟩
    match hvt : validTickers, hne with
    | t :: ts, _ =>
      rw [← hvt] at hla hzero ⊢
      have hraw : ∃ w rest, rawWeights validTickers m = w :: rest := by
        rw [hvt, rawWeights]
        exact ⟨_, _, rfl⟩
      obtain ⟨w, rest, hw⟩ := hraw
      rw [final_weights]
      simp only [hla, ok_bind]
      rw [hw] at hzero ⊢
      rw [hzero, divAll_zero]

theorem final_weights_equiv_realign_witness :
    final_weights ["A"] [("A", 2)] = realign_weights ["A"] [("A", 2)] :=
  (final_weights_equiv_realign ["A"] [("A", 2)] (by decide)).1
    (by norm_num [rawWeights, List.lookup])

/-- C10 counterexample: duplicate entered tickers collapse in
`dict(zip(tickers, normalized_weights))`: tickers `["A", "A"]` with
slider values `[100, 0]` give the map `{A: 0}`, whose values sum to 0
rather than 1 and are all zero. -/
theorem ticker_weight_map_duplicate_not_normalized :
    ticker_weight_map ["A", "A"] [100, 0] = [("A", 0)] ∧
    ((ticker_weight_map ["A", "A"] [100, 0]).map Prod.snd).sum = 0 ∧
    ((ticker_weight_map ["A", "A"] [100, 0]).map Prod.snd).sum ≠ 1 := by
  have h : ticker_weight_map ["A", "A"] [100, 0] = [("A", 0)] := by
    simp [ticker_weight_map, dictOfZip, dictInsert, List.lookup]
  refine ⟨h, ?_, ?_⟩ <;> rw [h] <;> norm_num

theorem lookup_append_right_none (x : Ticker) (l₁ l₂ : List (Ticker × ℚ))
    (h : List.lookup x l₁ = none) :
    List.lookup x (l₁ ++ l₂) = List.lookup x l₂ := by
  induction l₁ with
  | nil => rfl
  | cons p rest ih =>
    obtain ⟨k, v⟩ := p
    by_cases hk : x == k
    · exfalso
      simp only [List.lookup, hk] at h
      exact Option.some_ne_none v h
    · simp only [List.cons_append, List.lookup, hk] at h ⊢
      exact ih h

theorem foldl_dictInsert_of_fresh (ts : List Ticker) :
    ∀ (vs : List ℚ) (acc : List (Ticker × ℚ)), ts.Nodup →
      (∀ t ∈ ts, List.lookup t acc = none) →
      (List.zip ts vs).foldl (fun d p => dictInsert d p.1 p.2) acc =
        acc ++ ts.zip vs := by
  induction ts with
  | nil => intro vs acc _ _; simp
  | cons t ts ih =>
    intro vs acc hnd hfresh
    match vs with
    | [] => simp
    | v :: vs =>
      have hins : dictInsert acc t v = acc ++ [(t, v)] := by
        rw [dictInsert, if_neg]
        rw [hfresh t (by simp)]
        simp
      have hnd' := (List.nodup_cons.mp hnd).2
      have hnotin := (List.nodup_cons.mp hnd).1
      have hfresh' : ∀ x ∈ ts, List.lookup x (acc ++ [(t, v)]) = none := by
        intro x hx
        rw [lookup_append_right_none x acc _ (hfresh x (List.mem_cons_of_mem _ hx))]
        have hxt : ¬ x == t := by
          simp only [beq_iff_eq]
          rintro rfl
          exact hnotin hx
        simp [List.lookup, hxt]
      calc (List.zip (t :: ts) (v :: vs)).foldl (fun d p => dictInsert d p.1 p.2) acc
          = (List.zip ts vs).foldl (fun d p => dictInsert d p.1 p.2) (acc ++ [(t, v)]) := by
            simp [List.zip_cons_cons, hins]
        _ = (acc ++ [(t, v)]) ++ ts.zip vs := ih vs (acc ++ [(t, v)]) hnd' hfresh'
        _ = acc ++ List.zip (t :: ts) (v :: vs) := by simp [List.zip_cons_cons]

/-- With distinct keys, Python `dict(zip(ts, vs))` is just the paired
list. -/
theorem dictOfZip_eq_zip (ts : List Ticker) (vs : List ℚ) (hnd : ts.Nodup) :
    dictOfZip ts vs = ts.zip vs := by
  have := foldl_dictInsert_of_fresh ts vs [] hnd (by simp [List.lookup])
  simpa [dictOfZip] using this

theorem lookup_zip_isSome (ts : List Ticker) :
    ∀ (vs : List ℚ), vs.length = ts.length → ∀ t ∈ ts,
      (List.lookup t (ts.zip vs)).isSome := by
  induction ts with
  | nil => simp
  | cons t' ts ih =>
    intro vs hlen t ht
    match vs with
    | v :: vs =>
      by_cases hk : t == t'
      · simp [List.zip_cons_cons, List.lookup, hk]
      · have ht' : t ∈ ts := by
          rcases List.mem_cons.mp ht with rfl | h
          · simp at hk
          · exact h
        have := ih vs (by simpa using hlen) t ht'
        simpa [List.zip_cons_cons, List.lookup, hk] using this

/-- C10 amended: for a non-empty list of distinct entered tickers, one
slider value per ticker, the map the script passes to
`compute_portfolio_returns` pairs each ticker with its normalized weight
(`w/total` when the slider total is positive, else `1/len(tickers)`),
its values sum to 1, every entered ticker has an entry, and not all
values are zero. With duplicate tickers `dict(zip(...))` collapses
entries and these properties can fail. -/
theorem ticker_weight_map_normalized (tickers : List Ticker) (sliders : List ℚ)
    (hne : tickers ≠ []) (hnd : tickers.Nodup)
    (hlen : sliders.length = tickers.length) :
    ticker_weight_map tickers sliders =
      tickers.zip (if 0 < sliders.sum then sliders.map (· / sliders.sum)
        else List.replicate tickers.length (1 / (tickers.length : ℚ))) ∧
    ((ticker_weight_map tickers sliders).map Prod.snd).sum = 1 ∧
    (∀ t ∈ tickers, (List.lookup t (ticker_weight_map tickers sliders)).isSome) ∧
    ¬ (∀ v ∈ (ticker_weight_map tickers sliders).map Prod.snd, v = 0) := by
  set normalized := if 0 < sliders.sum then sliders.map (· / sliders.sum)
    else List.replicate tickers.length (1 / (tickers.length : ℚ)) with hnorm
  have hnlen : normalized.length = tickers.length := by
    rw [hnorm]
    by_cases hpos : 0 < sliders.sum <;> simp [hpos, hlen]
  have h1 : ticker_weight_map tickers sliders = tickers.zip normalized := by
    rw [ticker_weight_map]
    exact dictOfZip_eq_zip tickers normalized hnd
  have hsnd : (tickers.zip normalized).map Prod.snd = normalized :=
    List.map_snd_zip tickers normalized (le_of_eq hnlen)
  have h2 : ((ticker_weight_map tickers sliders).map Prod.snd).sum = 1 := by
    rw [h1, hsnd, hnorm]
    by_cases hpos : 0 < sliders.sum
    · rw [if_pos hpos, sum_map_div, div_self (ne_of_gt hpos)]
    · rw [if_neg hpos]
      exact sum_replicate_inv tickers.length (by simpa [List.length_eq_zero] using hne)
  refine ⟨h1, h2, ?_, ?_⟩
  · intro t ht
    rw [h1]
    exact lookup_zip_isSome tickers normalized hnlen t ht
  · intro hall
    have : ((ticker_weight_map tickers sliders).map Prod.snd).sum = 0 :=
      List.sum_eq_zero hall
    rw [h2] at this
    norm_num at this

theorem ticker_weight_map_normalized_witness :
    ((ticker_weight_map ["A", "B"] [60, 40]).map Prod.snd).sum = 1 :=
  (ticker_weight_map_normalized ["A", "B"] [60, 40] (by simp) (by decide)
    (by decide)).2.1

/-- Realignment, under coverage, written as a single map over the
tickers: each ticker gets its stored weight divided by the positive raw
total, or the equal weight `1/len` when the total is not positive. -/
theorem realign_weights_as_map (vt : List Ticker) (m : List (Ticker × ℚ))
    (hcov : ∀ t ∈ vt, (List.lookup t m).isSome) (hne : vt ≠ []) :
    realign_weights vt m = .ok (vt.map (fun t =>
      if 0 < (rawWeights vt m).sum
      then (List.lookup t m).getD 0 / (rawWeights vt m).sum
      else 1 / (vt.length : ℚ))) := by
  have hr : rawWeights vt m = vt.map (fun t => (List.lookup t m).getD 0) := rfl
  by_cases hpos : 0 < (rawWeights vt m).sum
  · rw [realign_weights_pos vt m hcov hpos]
    rw [hr] at hpos ⊢
    rw [List.map_map]
    congr 1
    exact List.map_congr_left (fun t _ => by
      simp only [Function.comp_apply]
      rw [if_pos hpos])
  · rw [realign_weights_nonpos vt m hcov hpos hne]
    congr 1
    rw [List.map_congr_left (fun t (_ : t ∈ vt) => if_neg hpos), List.map_const']

/-- The positionally-weighted column combination of app.py line 63,
rewritten as a map over the (ticker, column) pairs. -/
theorem zipWith_getD_mul_eq_map_zip (g : Ticker → ℚ) (i : ℕ) :
    ∀ (ts : List Ticker) (cs : List (List ℚ)),
      List.zipWith (fun c w => c.getD i 0 * w) (cs.map colReturns) (ts.map g) =
        (List.zip ts cs).map (fun p => (colReturns p.2).getD i 0 * g p.1) := by
  intro ts
  induction ts with
  | nil => intro cs; simp
  | cons t ts ih =>
    intro cs
    match cs with
    | [] => simp
    | c :: cs =>
      rw [List.map_cons, List.map_cons, List.zipWith_cons_cons,
        List.zip_cons_cons, List.map_cons, ih cs]

theorem dfIsEmpty_map_colReturns (cols : List (List ℚ)) (n : ℕ)
    (hwf : ∀ c ∈ cols, c.length = n) :
    (dfIsEmpty (cols.map colReturns) = true) ↔ (cols = [] ∨ n ≤ 1) := by
  match cols with
  | [] => simp [dfIsEmpty]
  | c :: rest =>
    have hc : c.length = n := hwf c (by simp)
    have hlen : (colReturns c).length = n - 1 := by
      rw [colReturns, List.length_zipWith, List.length_tail, hc]
      omega
    simp [dfIsEmpty, List.isEmpty_iff, ← List.length_eq_zero, hlen]
    omega

theorem head_retCols_length (cols : List (List ℚ)) (n : ℕ)
    (hwf : ∀ c ∈ cols, c.length = n) (hne : cols ≠ []) :
    (((cols.map colReturns).head?.getD []).length) = n - 1 := by
  match cols with
  | c :: rest =>
    have hc : c.length = n := hwf c (by simp)
    simp [colReturns, List.length_zipWith, List.length_tail, hc]

/-- C8 amended: permuting the columns of a well-formed prices table
(same joint reordering of tickers and price columns) leaves
`compute_portfolio_returns` unchanged, provided every column ticker has
a weight entry; when entries are missing both orders raise `KeyError`,
but possibly naming different tickers. -/
theorem compute_portfolio_returns_perm_invariant (d₁ d₂ : PriceTable)
    (m : List (Ticker × ℚ)) (n : ℕ)
    (hlen₁ : d₁.cols.length = d₁.tickers.length)
    (hlen₂ : d₂.cols.length = d₂.tickers.length)
    (hwf₁ : ∀ c ∈ d₁.cols, c.length = n)
    (hcov : ∀ t ∈ d₁.tickers, (List.lookup t m).isSome)
    (hperm : (List.zip d₂.tickers d₂.cols).Perm (List.zip d₁.tickers d₁.cols)) :
    compute_portfolio_returns d₂ m = compute_portfolio_returns d₁ m := by
  have htick : d₂.tickers.Perm d₁.tickers := by
    have h := hperm.map Prod.fst
    rwa [List.map_fst_zip _ _ (le_of_eq hlen₂.symm),
      List.map_fst_zip _ _ (le_of_eq hlen₁.symm)] at h
  have hcols : d₂.cols.Perm d₁.cols := by
    have h := hperm.map Prod.snd
    rwa [List.map_snd_zip _ _ (le_of_eq hlen₂),
      List.map_snd_zip _ _ (le_of_eq hlen₁)] at h
  by_cases hnil : d₁.tickers = []
  · have hnil₂ : d₂.tickers = [] := by
      rw [hnil] at htick
      exact htick.eq_nil
    simp [compute_portfolio_returns, realign_weights, hnil, hnil₂, lookupAll]
  · have hnil₂ : d₂.tickers ≠ [] := by
      intro h
      rw [h] at htick
      exact hnil htick.symm.eq_nil
    have hcov₂ : ∀ t ∈ d₂.tickers, (List.lookup t m).isSome :=
      fun t ht => hcov t (htick.mem_iff.mp ht)
    have hwf₂ : ∀ c ∈ d₂.cols, c.length = n :=
      fun c hc => hwf₁ c (hcols.mem_iff.mp hc)
    have hsum : (rawWeights d₂.tickers m).sum = (rawWeights d₁.tickers m).sum :=
      (htick.map _).sum_eq
    have hlenT : d₂.tickers.length = d₁.tickers.length := htick.length_eq
    have hnileq : (d₂.cols = []) ↔ (d₁.cols = []) := by
      rw [← List.length_eq_zero, ← List.length_eq_zero, hcols.length_eq]
    have hdf : dfIsEmpty (d₂.cols.map colReturns) =
        dfIsEmpty (d₁.cols.map colReturns) := by
      rw [Bool.eq_iff_iff, dfIsEmpty_map_colReturns d₂.cols n hwf₂,
        dfIsEmpty_map_colReturns d₁.cols n hwf₁, hnileq]
    have hseries : portfolio_series (d₂.cols.map colReturns)
        (d₂.tickers.map (fun t =>
          if 0 < (rawWeights d₁.tickers m).sum
          then (List.lookup t m).getD 0 / (rawWeights d₁.tickers m).sum
          else 1 / (d₁.tickers.length : ℚ))) =
        portfolio_series (d₁.cols.map colReturns)
        (d₁.tickers.map (fun t =>
          if 0 < (rawWeights d₁.tickers m).sum
          then (List.lookup t m).getD 0 / (rawWeights d₁.tickers m).sum
          else 1 / (d₁.tickers.length : ℚ))) := by
      by_cases hcnil : d₁.cols = []
      · have hcnil₂ : d₂.cols = [] := hnileq.mpr hcnil
        rw [hcnil, hcnil₂]
        simp [portfolio_series]
      · have hcnil₂ : d₂.cols ≠ [] := fun h => hcnil (hnileq.mp h)
        rw [portfolio_series, portfolio_series,
          head_retCols_length d₂.cols n hwf₂ hcnil₂,
          head_retCols_length d₁.cols n hwf₁ hcnil]
        refine List.map_congr_left (fun i _ => ?_)
        rw [zipWith_getD_mul_eq_map_zip, zipWith_getD_mul_eq_map_zip]
        exact (hperm.map _).sum_eq
    unfold compute_portfolio_returns
    rw [realign_weights_as_map d₂.tickers m hcov₂ hnil₂,
      realign_weights_as_map d₁.tickers m hcov hnil, hsum, hlenT]
    simp only [ok_bind, hdf, hseries]

/-- C8 counterexample: with an empty weight map, the two column orders
of the same table raise `KeyError` for different tickers, so the result
of `compute_portfolio_returns` is not invariant for arbitrary weight
maps; the columns of the second table are a permutation of the first's. -/
theorem compute_portfolio_returns_perm_missing_key_differs :
    (List.zip (["B", "A"] : List Ticker) [[(3 : ℚ), 4], [1, 2]]).Perm
      (List.zip (["A", "B"] : List Ticker) [[(1 : ℚ), 2], [3, 4]]) ∧
    compute_portfolio_returns ⟨["A", "B"], [[1, 2], [3, 4]]⟩ [] =
      .error (.keyError "A") ∧
    compute_portfolio_returns ⟨["B", "A"], [[3, 4], [1, 2]]⟩ [] =
      .error (.keyError "B") ∧
    compute_portfolio_returns ⟨["A", "B"], [[1, 2], [3, 4]]⟩ [] ≠
      compute_portfolio_returns ⟨["B", "A"], [[3, 4], [1, 2]]⟩ [] := by
  have h₁ : compute_portfolio_returns ⟨["A", "B"], [[1, 2], [3, 4]]⟩ [] =
      .error (.keyError "A") := by
    simp [compute_portfolio_returns, realign_weights, lookupAll, lookupWeight,
      List.lookup]
  have h₂ : compute_portfolio_returns ⟨["B", "A"], [[3, 4], [1, 2]]⟩ [] =
      .error (.keyError "B") := by
    simp [compute_portfolio_returns, realign_weights, lookupAll, lookupWeight,
      List.lookup]
  refine ⟨?_, h₁, h₂, ?_⟩
  · exact List.Perm.swap _ _ _
  · rw [h₁, h₂]
    simp

theorem compute_portfolio_returns_perm_invariant_witness :
    compute_portfolio_returns ⟨["B", "A"], [[50, 55], [100, 110]]⟩
        [("A", 70), ("B", 30)] =
      compute_portfolio_returns ⟨["A", "B"], [[100, 110], [50, 55]]⟩
        [("A", 70), ("B", 30)] :=
  compute_portfolio_returns_perm_invariant
    ⟨["A", "B"], [[100, 110], [50, 55]]⟩ ⟨["B", "A"], [[50, 55], [100, 110]]⟩
    [("A", 70), ("B", 30)] 2 (by decide) (by decide) (by decide) (by decide)
    (List.Perm.swap _ _ _)

end PortfolioDash
